import Mathlib

/-!
Shallow embedding of `src/nanobot/bus/queue.py` (`MessageBus`): an in-process
message bus with per-session inbound FIFO queues held in a registry map, a
global dispatch-notifier FIFO of session keys, and a global outbound FIFO.

`asyncio.Queue` objects are modelled as Lean lists: `put` appends at the tail,
`get` pops the head (returning `none` when the queue is empty, i.e. when the
Python call would suspend).  The Python `dict` registry is modelled as an
association list in insertion order; dict states always have pairwise distinct
keys, captured by the `MessageBus.WF` predicate for theorems quantifying over
arbitrary states.
-/

namespace Nanobot

/-- Modelled from the spec: `nanobot/bus/events.py` is not in the sources.
An inbound message carries at minimum a session key and an opaque payload;
the bus only ever reads `session_key`. -/
structure InboundMessage where
  session_key : String
  payload : String
deriving DecidableEq, Repr

/-- Modelled from the spec: `nanobot/bus/events.py` is not in the sources.
An outbound message carries a destination/channel reference and an opaque
payload; the bus never inspects either. -/
structure OutboundMessage where
  channel : String
  payload : String
deriving DecidableEq, Repr

/-- Python dict lookup `d.get(key)`, on a dict modelled as an association list. -/
def dictGet {α : Type} : List (String × α) → String → Option α
  | [], _ => none
  | (k, v) :: rest, key => if k = key then some v else dictGet rest key

/-- Python dict removal `d.pop(key, None)`: remove the entry for `key`. -/
def dictPop {α : Type} : List (String × α) → String → List (String × α)
  | [], _ => []
  | (k, v) :: rest, key => if k = key then rest else (k, v) :: dictPop rest key

/-- In-place mutation of the value stored under `key` (the Python code mutates
the queue object held in the dict entry). -/
def dictUpdate {α : Type} : List (String × α) → String → (α → α) → List (String × α)
  | [], _, _ => []
  | (k, v) :: rest, key, f =>
      if k = key then (k, f v) :: rest else (k, v) :: dictUpdate rest key f

/-- State of `MessageBus`: the session-queue registry (`self._session_queues`),
the dispatch notifier (`self._dispatch`) and the outbound queue
(`self.outbound`), each `asyncio.Queue` modelled as a FIFO list. -/
structure MessageBus where
  session_queues : List (String × List InboundMessage)
  dispatch : List String
  outbound : List OutboundMessage
deriving DecidableEq, Repr

namespace MessageBus

/-- Constructor `MessageBus.__init__`: empty registry, empty dispatch queue, empty
outbound queue. -/
def init : MessageBus := ⟨[], [], []⟩

/-- Python dict states have pairwise distinct keys. -/
def WF (b : MessageBus) : Prop := (b.session_queues.map Prod.fst).Nodup

instance (b : MessageBus) : Decidable b.WF := by
  unfold WF; infer_instance

/-- Method `MessageBus._get_or_create_session_queue`: return the queue for `key`,
first inserting an empty one if absent.  Returns the contents of the queue
together with the updated registry. -/
def _get_or_create_session_queue (b : MessageBus) (key : String) :
    List InboundMessage × MessageBus :=
  match dictGet b.session_queues key with
  | some q => (q, b)
  | none => ([], { b with session_queues := b.session_queues ++ [(key, [])] })

/-- Method `MessageBus.publish_inbound`: route an inbound message to its session
queue (created if absent) and append its session key to the dispatcher. -/
def publish_inbound (b : MessageBus) (msg : InboundMessage) : MessageBus :=
  let key := msg.session_key
  let b1 := (b._get_or_create_session_queue key).2
  { b1 with
    session_queues := dictUpdate b1.session_queues key (fun q => q ++ [msg])
    dispatch := b1.dispatch ++ [key] }

/-- Method `MessageBus.consume_dispatch`: pop the oldest session key from the
dispatch notifier; `none` models the suspended (empty-queue) case. -/
def consume_dispatch (b : MessageBus) : Option (String × MessageBus) :=
  match b.dispatch with
  | [] => none
  | k :: rest => some (k, { b with dispatch := rest })

/-- Method `MessageBus.get_session_queue`: get (or create) the inbound queue for a
given session. -/
def get_session_queue (b : MessageBus) (key : String) :
    List InboundMessage × MessageBus :=
  b._get_or_create_session_queue key

/-- Method `MessageBus.drop_session_queue`: remove the session queue for `key` only
if it exists and is currently empty; otherwise do nothing. -/
def drop_session_queue (b : MessageBus) (key : String) : MessageBus :=
  match dictGet b.session_queues key with
  | some q =>
      if q.isEmpty then { b with session_queues := dictPop b.session_queues key }
      else b
  | none => b

/-- Method `MessageBus.publish_outbound`: append a response to the outbound queue. -/
def publish_outbound (b : MessageBus) (msg : OutboundMessage) : MessageBus :=
  { b with outbound := b.outbound ++ [msg] }

/-- Method `MessageBus.consume_outbound`: pop the oldest outbound message; `none`
models the suspended (empty-queue) case. -/
def consume_outbound (b : MessageBus) : Option (OutboundMessage × MessageBus) :=
  match b.outbound with
  | [] => none
  | m :: rest => some (m, { b with outbound := rest })

/-- Property `MessageBus.inbound_size`: total number of pending inbound messages
across all sessions (`sum(q.qsize() for q in self._session_queues.values())`). -/
def inbound_size (b : MessageBus) : Nat :=
  (b.session_queues.map (fun p => p.2.length)).sum

/-- Property `MessageBus.outbound_size`: number of pending outbound messages. -/
def outbound_size (b : MessageBus) : Nat := b.outbound.length

/-- A consumer holding the queue object returned by `get_session_queue` calls
`queue.get()` on it: pop the head of the session queue of `key`.  The dict entry
is mutated in place; popping never removes the entry from the registry. -/
def session_get (b : MessageBus) (key : String) :
    Option (InboundMessage × MessageBus) :=
  match dictGet b.session_queues key with
  | some (msg :: rest) =>
      some (msg, { b with
        session_queues := dictUpdate b.session_queues key (fun _ => rest) })
  | _ => none

end MessageBus

/-- Repeatedly calling `get` on a FIFO queue until empty yields its contents
front to back. -/
def drainQueue {α : Type} : List α → List α
  | [] => []
  | x :: rest => x :: drainQueue rest

/-- Publish a sequence of inbound messages in call order. -/
def publishAll (b : MessageBus) (ms : List InboundMessage) : MessageBus :=
  ms.foldl MessageBus.publish_inbound b

/-! ### Lemmas about the dict model -/

theorem dictGet_eq_none_of_not_mem {α : Type} (m : List (String × α)) (key : String)
    (h : key ∉ m.map Prod.fst) : dictGet m key = none := by
  induction m with
  | nil => rfl
  | cons p rest ih =>
      obtain ⟨k, v⟩ := p
      simp only [List.map_cons, List.mem_cons] at h
      push_neg at h
      simp only [dictGet, if_neg (Ne.symm h.1)]
      exact ih h.2

theorem dictGet_append_of_none {α : Type} (m : List (String × α)) (key : String) (v : α)
    (h : dictGet m key = none) : dictGet (m ++ [(key, v)]) key = some v := by
  induction m with
  | nil => simp [dictGet]
  | cons p rest ih =>
      obtain ⟨k, w⟩ := p
      by_cases hk : k = key
      · simp [dictGet, hk] at h
      · simp only [dictGet, if_neg hk] at h
        simpa only [List.cons_append, dictGet, if_neg hk] using ih h

theorem dictGet_append_of_ne {α : Type} (m : List (String × α)) (key k : String) (v : α)
    (h : k ≠ key) : dictGet (m ++ [(key, v)]) k = dictGet m k := by
  induction m with
  | nil => simp [dictGet, if_neg (Ne.symm h)]
  | cons p rest ih =>
      obtain ⟨k1, w⟩ := p
      by_cases hk : k1 = k
      · simp [dictGet, hk]
      · simpa only [List.cons_append, dictGet, if_neg hk] using ih

theorem dictGet_update_of_some {α : Type} (m : List (String × α)) (key : String)
    (f : α → α) (q : α) (h : dictGet m key = some q) :
    dictGet (dictUpdate m key f) key = some (f q) := by
  induction m with
  | nil => simp [dictGet] at h
  | cons p rest ih =>
      obtain ⟨k, w⟩ := p
      by_cases hk : k = key
      · simp only [dictGet, if_pos hk, Option.some.injEq] at h
        simp [dictUpdate, dictGet, if_pos hk, h]
      · simp only [dictGet, if_neg hk] at h
        simpa only [dictUpdate, if_neg hk, dictGet] using ih h

theorem dictUpdate_of_none {α : Type} (m : List (String × α)) (key : String)
    (f : α → α) (h : dictGet m key = none) : dictUpdate m key f = m := by
  induction m with
  | nil => rfl
  | cons p rest ih =>
      obtain ⟨k, w⟩ := p
      by_cases hk : k = key
      · simp [dictGet, hk] at h
      · simp only [dictGet, if_neg hk] at h
        simp [dictUpdate, if_neg hk, ih h]

theorem dictGet_update_of_ne {α : Type} (m : List (String × α)) (key k : String)
    (f : α → α) (h : k ≠ key) : dictGet (dictUpdate m key f) k = dictGet m k := by
  induction m with
  | nil => rfl
  | cons p rest ih =>
      obtain ⟨k1, w⟩ := p
      by_cases hk : k1 = key
      · simp only [dictUpdate, if_pos hk, dictGet, if_neg (hk ▸ Ne.symm h)]
      · by_cases hk1 : k1 = k
        · subst hk1
          simp [dictUpdate, if_neg hk, dictGet]
        · simpa only [dictUpdate, if_neg hk, dictGet, if_neg hk1] using ih

theorem dictGet_update_isSome {α : Type} (m : List (String × α)) (key k : String)
    (f : α → α) (h : (dictGet m k).isSome) : (dictGet (dictUpdate m key f) k).isSome := by
  by_cases hk : k = key
  · subst hk
    obtain ⟨q, hq⟩ := Option.isSome_iff_exists.1 h
    simp [dictGet_update_of_some m k f q hq]
  · simpa [dictGet_update_of_ne m key k f hk] using h

theorem dictPop_of_none {α : Type} (m : List (String × α)) (key : String)
    (h : dictGet m key = none) : dictPop m key = m := by
  induction m with
  | nil => rfl
  | cons p rest ih =>
      obtain ⟨k, w⟩ := p
      by_cases hk : k = key
      · simp [dictGet, hk] at h
      · simp only [dictGet, if_neg hk] at h
        simp [dictPop, if_neg hk, ih h]

theorem dictGet_dictPop_self {α : Type} (m : List (String × α)) (key : String)
    (h : (m.map Prod.fst).Nodup) : dictGet (dictPop m key) key = none := by
  induction m with
  | nil => rfl
  | cons p rest ih =>
      obtain ⟨k, w⟩ := p
      simp only [List.map_cons, List.nodup_cons] at h
      by_cases hk : k = key
      · simp only [dictPop, if_pos hk]
        exact dictGet_eq_none_of_not_mem rest key (hk ▸ h.1)
      · simpa only [dictPop, if_neg hk, dictGet, if_neg hk] using ih h.2

theorem dictGet_dictPop_ne {α : Type} (m : List (String × α)) (key k : String)
    (h : k ≠ key) : dictGet (dictPop m key) k = dictGet m k := by
  induction m with
  | nil => rfl
  | cons p rest ih =>
      obtain ⟨k1, w⟩ := p
      by_cases hk : k1 = key
      · simp only [dictPop, if_pos hk, dictGet, if_neg (hk ▸ Ne.symm h)]
      · by_cases hk1 : k1 = k
        · subst hk1
          simp [dictPop, if_neg hk, dictGet]
        · simpa only [dictPop, if_neg hk, dictGet, if_neg hk1] using ih

theorem drainQueue_eq {α : Type} (q : List α) : drainQueue q = q := by
  induction q with
  | nil => rfl
  | cons x rest ih => simp [drainQueue, ih]

/-! ### Lemmas about the bus operations -/

namespace MessageBus

theorem goc_dispatch (b : MessageBus) (key : String) :
    (b._get_or_create_session_queue key).2.dispatch = b.dispatch := by
  unfold _get_or_create_session_queue
  cases dictGet b.session_queues key <;> rfl

theorem goc_outbound (b : MessageBus) (key : String) :
    (b._get_or_create_session_queue key).2.outbound = b.outbound := by
  unfold _get_or_create_session_queue
  cases dictGet b.session_queues key <;> rfl

theorem goc_of_some (b : MessageBus) (key : String) (q : List InboundMessage)
    (h : dictGet b.session_queues key = some q) :
    b._get_or_create_session_queue key = (q, b) := by
  simp [_get_or_create_session_queue, h]

theorem goc_sessions_of_none (b : MessageBus) (key : String)
    (h : dictGet b.session_queues key = none) :
    (b._get_or_create_session_queue key).2.session_queues =
      b.session_queues ++ [(key, [])] := by
  simp [_get_or_create_session_queue, h]

theorem get_session_queue_fst (b : MessageBus) (key : String) :
    (b.get_session_queue key).1 = (dictGet b.session_queues key).getD [] := by
  unfold get_session_queue _get_or_create_session_queue
  cases h : dictGet b.session_queues key <;> simp

theorem publish_inbound_sessionGet (b : MessageBus) (msg : InboundMessage) (k : String) :
    dictGet (b.publish_inbound msg).session_queues k =
      if k = msg.session_key then
        some ((dictGet b.session_queues k).getD [] ++ [msg])
      else dictGet b.session_queues k := by
  simp only [publish_inbound]
  cases h : dictGet b.session_queues msg.session_key with
  | some q =>
      rw [goc_of_some b msg.session_key q h]
      by_cases hk : k = msg.session_key
      · subst hk
        simp [dictGet_update_of_some _ _ _ _ h, h]
      · simp [hk, dictGet_update_of_ne _ _ _ _ hk]
  | none =>
      rw [goc_sessions_of_none b msg.session_key h]
      by_cases hk : k = msg.session_key
      · subst hk
        have h1 : dictGet (b.session_queues ++ [(msg.session_key, [])]) msg.session_key =
            some [] := dictGet_append_of_none _ _ _ h
        simp [dictGet_update_of_some _ _ _ _ h1, h]
      · simp only [if_neg hk]
        rw [dictGet_update_of_ne _ _ _ _ hk, dictGet_append_of_ne _ _ _ _ hk]

theorem publish_inbound_dispatch (b : MessageBus) (msg : InboundMessage) :
    (b.publish_inbound msg).dispatch = b.dispatch ++ [msg.session_key] := by
  simp only [publish_inbound]
  rw [goc_dispatch]

theorem publish_inbound_outbound (b : MessageBus) (msg : InboundMessage) :
    (b.publish_inbound msg).outbound = b.outbound := by
  simp only [publish_inbound]
  rw [goc_outbound]

end MessageBus

theorem publishAll_dispatch (b : MessageBus) (ms : List InboundMessage) :
    (publishAll b ms).dispatch = b.dispatch ++ ms.map (fun m => m.session_key) := by
  induction ms generalizing b with
  | nil => simp [publishAll]
  | cons m rest ih =>
      simp only [publishAll, List.foldl_cons, List.map_cons]
      rw [show rest.foldl MessageBus.publish_inbound (b.publish_inbound m) =
            publishAll (b.publish_inbound m) rest from rfl, ih,
          MessageBus.publish_inbound_dispatch]
      simp

theorem publishAll_sessionGet_all (b : MessageBus) (ms : List InboundMessage)
    (K : String) (h : ∀ m ∈ ms, m.session_key = K) :
    dictGet (publishAll b ms).session_queues K =
      if ms.isEmpty then dictGet b.session_queues K
      else some ((dictGet b.session_queues K).getD [] ++ ms) := by
  induction ms generalizing b with
  | nil => simp [publishAll]
  | cons m rest ih =>
      have hm : m.session_key = K := h m (List.mem_cons_self m rest)
      have hrest : ∀ x ∈ rest, x.session_key = K := fun x hx => h x (List.mem_cons_of_mem m hx)
      simp only [publishAll, List.foldl_cons]
      rw [show rest.foldl MessageBus.publish_inbound (b.publish_inbound m) =
            publishAll (b.publish_inbound m) rest from rfl, ih _ hrest]
      have hpub : dictGet (b.publish_inbound m).session_queues K =
          some ((dictGet b.session_queues K).getD [] ++ [m]) := by
        rw [MessageBus.publish_inbound_sessionGet, if_pos hm.symm]
      cases rest with
      | nil => simpa using hpub
      | cons r rs => simp [hpub]

/-! ### Operations of the bus as a step relation

Every public operation of `MessageBus`, together with the consumer calling
`queue.get()` on a session queue obtained from `get_session_queue`; a
blocked (empty-queue) read is a no-op on the state. -/

inductive BusOp where
  | pubIn (msg : InboundMessage)
  | pubOut (msg : OutboundMessage)
  | getDispatch
  | getOut
  | getSession (key : String)
  | popSession (key : String)
  | dropSession (key : String)
deriving DecidableEq, Repr

/-- State transition of one bus operation (return values discarded). -/
def step (b : MessageBus) : BusOp → MessageBus
  | BusOp.pubIn m => b.publish_inbound m
  | BusOp.pubOut m => b.publish_outbound m
  | BusOp.getDispatch =>
      match b.consume_dispatch with
      | some (_, b1) => b1
      | none => b
  | BusOp.getOut =>
      match b.consume_outbound with
      | some (_, b1) => b1
      | none => b
  | BusOp.getSession key => (b.get_session_queue key).2
  | BusOp.popSession key =>
      match b.session_get key with
      | some (_, b1) => b1
      | none => b
  | BusOp.dropSession key => b.drop_session_queue key

/-- Run a sequence of bus operations in order. -/
def runOps (b : MessageBus) (ops : List BusOp) : MessageBus :=
  ops.foldl step b

/-- The outbound message appended by one operation (empty for all but
`publish_outbound`). -/
def opOutboundPush : BusOp → List OutboundMessage
  | BusOp.pubOut m => [m]
  | _ => []

/-- The outbound messages published by a sequence of operations, in call
order. -/
def outboundPublishes : List BusOp → List OutboundMessage
  | [] => []
  | op :: rest => opOutboundPush op ++ outboundPublishes rest

theorem step_outbound (b : MessageBus) (op : BusOp) (h : op ≠ BusOp.getOut) :
    (step b op).outbound = b.outbound ++ opOutboundPush op := by
  cases op with
  | pubIn m => simpa [step, opOutboundPush] using MessageBus.publish_inbound_outbound b m
  | pubOut m => rfl
  | getDispatch =>
      unfold step MessageBus.consume_dispatch
      cases b.dispatch <;> simp [opOutboundPush]
  | getOut => exact absurd rfl h
  | getSession key =>
      simpa [step, MessageBus.get_session_queue, opOutboundPush] using
        MessageBus.goc_outbound b key
  | popSession key =>
      unfold step MessageBus.session_get
      cases hx : dictGet b.session_queues key with
      | none => simp [hx, opOutboundPush]
      | some q => cases q <;> simp [hx, opOutboundPush]
  | dropSession key =>
      unfold step MessageBus.drop_session_queue
      cases hx : dictGet b.session_queues key with
      | none => simp [hx, opOutboundPush]
      | some q => cases hq : q.isEmpty <;> simp [hx, hq, opOutboundPush]

theorem runOps_outbound (ops : List BusOp) (h : ∀ op ∈ ops, op ≠ BusOp.getOut) :
    ∀ b : MessageBus, (runOps b ops).outbound = b.outbound ++ outboundPublishes ops := by
  induction ops with
  | nil => intro b; simp [runOps, outboundPublishes]
  | cons op rest ih =>
      intro b
      have h1 : op ≠ BusOp.getOut := h op (List.mem_cons_self op rest)
      have h2 : ∀ x ∈ rest, x ≠ BusOp.getOut := fun x hx => h x (List.mem_cons_of_mem op hx)
      have : runOps b (op :: rest) = runOps (step b op) rest := rfl
      rw [this, ih h2, step_outbound b op h1, outboundPublishes]
      simp

theorem step_keeps_nonempty_queue (b : MessageBus) (op : BusOp) (k : String)
    (q : List InboundMessage) (h1 : dictGet b.session_queues k = some q) (h2 : q ≠ []) :
    (dictGet (step b op).session_queues k).isSome := by
  cases op with
  | pubIn m =>
      rw [show step b (BusOp.pubIn m) = b.publish_inbound m from rfl,
          MessageBus.publish_inbound_sessionGet]
      by_cases hk : k = m.session_key <;> simp [hk, h1]
  | pubOut m => simp [step, MessageBus.publish_outbound, h1]
  | getDispatch =>
      unfold step MessageBus.consume_dispatch
      cases b.dispatch <;> simp [h1]
  | getOut =>
      unfold step MessageBus.consume_outbound
      cases b.outbound <;> simp [h1]
  | getSession key =>
      unfold step MessageBus.get_session_queue MessageBus._get_or_create_session_queue
      cases hx : dictGet b.session_queues key with
      | some q1 => simp [hx, h1]
      | none =>
          by_cases hk : k = key
          · rw [hk] at h1; rw [h1] at hx; exact absurd hx (by simp)
          · simp [hx, dictGet_append_of_ne _ _ _ _ hk, h1]
  | popSession key =>
      unfold step MessageBus.session_get
      cases hx : dictGet b.session_queues key with
      | none => simp [hx, h1]
      | some q1 =>
          cases q1 with
          | nil => simp [hx, h1]
          | cons x xs =>
              simpa [hx] using
                dictGet_update_isSome b.session_queues key k (fun _ => xs) (by simp [h1])
  | dropSession key =>
      unfold step MessageBus.drop_session_queue
      cases hx : dictGet b.session_queues key with
      | none => simp [hx, h1]
      | some q1 =>
          cases hq : q1.isEmpty with
          | false => simp [hx, hq, h1]
          | true =>
              by_cases hk : k = key
              · rw [hk] at h1; rw [h1] at hx
                have hqq : q = q1 := by injection hx
                rw [List.isEmpty_iff] at hq
                exact absurd (hqq.trans hq) h2
              · simp [hx, hq, dictGet_dictPop_ne _ _ _ hk, h1]

/-! ### Case analyses of `drop_session_queue` -/

theorem MessageBus.drop_of_none (b : MessageBus) (key : String)
    (h : dictGet b.session_queues key = none) : b.drop_session_queue key = b := by
  simp [MessageBus.drop_session_queue, h]

theorem MessageBus.drop_of_empty (b : MessageBus) (key : String)
    (h : dictGet b.session_queues key = some []) :
    b.drop_session_queue key =
      { b with session_queues := dictPop b.session_queues key } := by
  simp [MessageBus.drop_session_queue, h]

theorem MessageBus.drop_of_nonempty (b : MessageBus) (key : String)
    (q : List InboundMessage) (h : dictGet b.session_queues key = some q)
    (hq : q ≠ []) : b.drop_session_queue key = b := by
  cases q with
  | nil => exact absurd rfl hq
  | cons x xs => simp [MessageBus.drop_session_queue, h]

theorem MessageBus.drop_dispatch (b : MessageBus) (key : String) :
    (b.drop_session_queue key).dispatch = b.dispatch := by
  unfold MessageBus.drop_session_queue
  cases hx : dictGet b.session_queues key with
  | none => simp [hx]
  | some q => cases hq : q.isEmpty <;> simp [hx, hq]

theorem MessageBus.drop_outbound (b : MessageBus) (key : String) :
    (b.drop_session_queue key).outbound = b.outbound := by
  unfold MessageBus.drop_session_queue
  cases hx : dictGet b.session_queues key with
  | none => simp [hx]
  | some q => cases hq : q.isEmpty <;> simp [hx, hq]

/-! ### Concrete states and operation sequences used as witnesses -/

/-- A bus with one empty session queue, one non-empty session queue, a
pending dispatch token and a pending outbound message. -/
def sampleBus : MessageBus :=
  ⟨[("x", []), ("y", [InboundMessage.mk "y" "m"])], ["y"],
    [OutboundMessage.mk "c" "r"]⟩

/-- An operation sequence with inbound activity interleaved between
outbound publishes. -/
def sampleOps : List BusOp :=
  [BusOp.pubOut (OutboundMessage.mk "c" "o1"),
   BusOp.pubIn (InboundMessage.mk "u" "m1"),
   BusOp.getDispatch,
   BusOp.pubOut (OutboundMessage.mk "c" "o2"),
   BusOp.dropSession "u",
   BusOp.getSession "v",
   BusOp.popSession "u",
   BusOp.pubOut (OutboundMessage.mk "d" "o3")]

/-! ### The claims -/

/-- C1: per-session FIFO.  For any session key `K`, if messages are published
for `K` via `publish_inbound` in a given call order, draining the session
queue of `K` obtained via `get_session_queue K` yields exactly those messages
in that order. -/
theorem claim1_per_session_fifo (K : String) (ms : List InboundMessage)
    (h : ∀ m ∈ ms, m.session_key = K) :
    drainQueue ((publishAll MessageBus.init ms).get_session_queue K).1 = ms := by
  rw [drainQueue_eq, MessageBus.get_session_queue_fst,
      publishAll_sessionGet_all MessageBus.init ms K h]
  cases ms with
  | nil => rfl
  | cons m rest => simp [MessageBus.init, dictGet]

theorem claim1_witness :
    (∀ m ∈ [InboundMessage.mk "u" "a", InboundMessage.mk "u" "b"],
      m.session_key = "u") ∧
    drainQueue ((publishAll MessageBus.init
        [InboundMessage.mk "u" "a", InboundMessage.mk "u" "b"]).get_session_queue
        "u").1 =
      [InboundMessage.mk "u" "a", InboundMessage.mk "u" "b"] :=
  ⟨by decide, claim1_per_session_fifo "u" _ (by decide)⟩

/-- C2: global dispatch-token order.  Every `publish_inbound` call appends one
token carrying the session key of its message, so the dispatch notifier holds
the session keys in global publish order; in particular `N` messages for `A`
followed by one for `B` yield `N` tokens `A` and then one token `B`. -/
theorem claim2_dispatch_global_order (b : MessageBus) (ms : List InboundMessage) :
    (publishAll b ms).dispatch = b.dispatch ++ ms.map (fun m => m.session_key) ∧
    (∀ (msA : List InboundMessage) (mB : InboundMessage) (A B : String),
      (∀ m ∈ msA, m.session_key = A) → mB.session_key = B →
      (publishAll MessageBus.init (msA ++ [mB])).dispatch =
        List.replicate msA.length A ++ [B]) := by
  refine ⟨publishAll_dispatch b ms, ?_⟩
  intro msA mB A B hA hB
  rw [publishAll_dispatch]
  have hmap : msA.map (fun m => m.session_key) = List.replicate msA.length A := by
    apply List.eq_replicate_iff.2
    refine ⟨by simp, ?_⟩
    intro x hx
    obtain ⟨m, hm, rfl⟩ := List.mem_map.1 hx
    exact hA m hm
  simp [MessageBus.init, hmap, hB]

theorem claim2_witness :
    (publishAll MessageBus.init
        ([InboundMessage.mk "a" "1", InboundMessage.mk "a" "2"] ++
          [InboundMessage.mk "b" "3"])).dispatch =
      List.replicate 2 "a" ++ ["b"] :=
  (claim2_dispatch_global_order MessageBus.init []).2
    [InboundMessage.mk "a" "1", InboundMessage.mk "a" "2"]
    (InboundMessage.mk "b" "3") "a" "b" (by decide) (by decide)

/-- C3: drop semantics.  `drop_session_queue key` removes the queue for `key`
from the registry iff it exists and is empty; a missing or non-empty queue
makes the call a no-op (state unchanged), and no bus operation ever removes a
session queue while it is non-empty. -/
theorem claim3_drop_semantics (b : MessageBus) (key : String) (hWF : b.WF) :
    (dictGet (b.drop_session_queue key).session_queues key = none ↔
      dictGet b.session_queues key = none ∨
        dictGet b.session_queues key = some []) ∧
    (dictGet b.session_queues key = none → b.drop_session_queue key = b) ∧
    (∀ q : List InboundMessage, dictGet b.session_queues key = some q → q ≠ [] →
      b.drop_session_queue key = b) ∧
    (∀ (op : BusOp) (k : String) (q : List InboundMessage),
      dictGet b.session_queues k = some q → q ≠ [] →
      (dictGet (step b op).session_queues k).isSome) := by
  refine ⟨?_, MessageBus.drop_of_none b key,
    fun q h1 h2 => MessageBus.drop_of_nonempty b key q h1 h2,
    fun op k q h1 h2 => step_keeps_nonempty_queue b op k q h1 h2⟩
  cases hx : dictGet b.session_queues key with
  | none => simp [MessageBus.drop_of_none b key hx, hx]
  | some q =>
      cases q with
      | nil =>
          rw [MessageBus.drop_of_empty b key hx]
          simp [dictGet_dictPop_self b.session_queues key hWF, hx]
      | cons x xs =>
          rw [MessageBus.drop_of_nonempty b key (x :: xs) hx (by simp)]
          simp [hx]

theorem claim3_witness :
    sampleBus.WF ∧
    ((dictGet (sampleBus.drop_session_queue "x").session_queues "x" = none ↔
        dictGet sampleBus.session_queues "x" = none ∨
          dictGet sampleBus.session_queues "x" = some []) ∧
      (dictGet sampleBus.session_queues "x" = none →
        sampleBus.drop_session_queue "x" = sampleBus) ∧
      (∀ q : List InboundMessage, dictGet sampleBus.session_queues "x" = some q →
        q ≠ [] → sampleBus.drop_session_queue "x" = sampleBus) ∧
      (∀ (op : BusOp) (k : String) (q : List InboundMessage),
        dictGet sampleBus.session_queues k = some q → q ≠ [] →
        (dictGet (step sampleBus op).session_queues k).isSome)) :=
  ⟨by decide, claim3_drop_semantics sampleBus "x" (by decide)⟩

/-- C4: drop/notify race tolerance.  `drop_session_queue` leaves the dispatch
notifier and the outbound queue unchanged, and after a drop that removed the
queue for `key`, `get_session_queue key` finds a freshly recreated empty queue
and a `publish_inbound` for `key` lands in a freshly recreated queue. -/
theorem claim4_drop_frame (b : MessageBus) (key : String) (hWF : b.WF) :
    (b.drop_session_queue key).dispatch = b.dispatch ∧
    (b.drop_session_queue key).outbound = b.outbound ∧
    (dictGet b.session_queues key = some [] →
      ((b.drop_session_queue key).get_session_queue key).1 = [] ∧
      ∀ msg : InboundMessage, msg.session_key = key →
        dictGet ((b.drop_session_queue key).publish_inbound msg).session_queues
          key = some [msg]) := by
  refine ⟨MessageBus.drop_dispatch b key, MessageBus.drop_outbound b key, ?_⟩
  intro hx
  have hdropped : dictGet (b.drop_session_queue key).session_queues key = none := by
    rw [MessageBus.drop_of_empty b key hx]
    exact dictGet_dictPop_self b.session_queues key hWF
  constructor
  · rw [MessageBus.get_session_queue_fst, hdropped]
    rfl
  · intro msg hmsg
    rw [MessageBus.publish_inbound_sessionGet, hmsg, if_pos rfl, hdropped]
    rfl

theorem claim4_witness :
    sampleBus.WF ∧
    ((sampleBus.drop_session_queue "x").dispatch = sampleBus.dispatch ∧
      (sampleBus.drop_session_queue "x").outbound = sampleBus.outbound ∧
      (dictGet sampleBus.session_queues "x" = some [] →
        ((sampleBus.drop_session_queue "x").get_session_queue "x").1 = [] ∧
        ∀ msg : InboundMessage, msg.session_key = "x" →
          dictGet
            ((sampleBus.drop_session_queue "x").publish_inbound msg).session_queues
            "x" = some [msg])) :=
  ⟨by decide, claim4_drop_frame sampleBus "x" (by decide)⟩

/-- C5: lazy creation and identity.  On a registry with no queue for `key`,
`get_session_queue key` returns an empty queue and registers it, and a
subsequent `get_session_queue` with the same key returns the same queue and
the same bus state, not a fresh one. -/
theorem claim5_lazy_creation (b : MessageBus) (key : String)
    (h : dictGet b.session_queues key = none) :
    (b.get_session_queue key).1 = [] ∧
    dictGet (b.get_session_queue key).2.session_queues key = some [] ∧
    (b.get_session_queue key).2.get_session_queue key =
      ((b.get_session_queue key).1, (b.get_session_queue key).2) := by
  have h1 : (b.get_session_queue key).1 = [] := by
    rw [MessageBus.get_session_queue_fst, h]
    rfl
  have h2 : dictGet (b.get_session_queue key).2.session_queues key = some [] := by
    rw [show (b.get_session_queue key).2 = (b._get_or_create_session_queue key).2
          from rfl, MessageBus.goc_sessions_of_none b key h]
    exact dictGet_append_of_none _ _ _ h
  refine ⟨h1, h2, ?_⟩
  rw [show (b.get_session_queue key).2.get_session_queue key =
        (b.get_session_queue key).2._get_or_create_session_queue key from rfl,
      MessageBus.goc_of_some _ key [] h2, h1]

theorem claim5_witness :
    dictGet MessageBus.init.session_queues "x" = none ∧
    ((MessageBus.init.get_session_queue "x").1 = [] ∧
      dictGet (MessageBus.init.get_session_queue "x").2.session_queues "x" =
        some [] ∧
      (MessageBus.init.get_session_queue "x").2.get_session_queue "x" =
        ((MessageBus.init.get_session_queue "x").1,
          (MessageBus.init.get_session_queue "x").2)) :=
  ⟨rfl, claim5_lazy_creation MessageBus.init "x" rfl⟩

/-- C6: outbound global FIFO.  For any operation sequence containing no
`consume_outbound`, the outbound queue ends as the initial outbound queue
followed by the outbound messages published, in call order, regardless of the
inbound activity interleaved between the publishes; draining it from a fresh
bus yields exactly the published messages in publish order. -/
theorem claim6_outbound_fifo (ops : List BusOp)
    (h : ∀ op ∈ ops, op ≠ BusOp.getOut) :
    (∀ b : MessageBus,
      (runOps b ops).outbound = b.outbound ++ outboundPublishes ops) ∧
    drainQueue (runOps MessageBus.init ops).outbound = outboundPublishes ops := by
  refine ⟨runOps_outbound ops h, ?_⟩
  rw [drainQueue_eq, runOps_outbound ops h MessageBus.init]
  rfl

theorem claim6_witness :
    (∀ op ∈ sampleOps, op ≠ BusOp.getOut) ∧
    ((∀ b : MessageBus,
        (runOps b sampleOps).outbound = b.outbound ++ outboundPublishes sampleOps) ∧
      drainQueue (runOps MessageBus.init sampleOps).outbound =
        outboundPublishes sampleOps) :=
  ⟨by decide, claim6_outbound_fifo sampleOps (by decide)⟩

/-- C7: total-pending accounting.  `inbound_size` is the sum of the lengths of
all session queues in the registry; after publishing for `u1`, `u2`, `u1` on a
fresh bus it is `3`, and after draining the single message of `u2` and
dropping `u2` it is `2`. -/
theorem claim7_total_pending :
    (∀ b : MessageBus,
      b.inbound_size = (b.session_queues.map (fun p => p.2.length)).sum) ∧
    (publishAll MessageBus.init
      [InboundMessage.mk "u1" "hi", InboundMessage.mk "u2" "yo",
        InboundMessage.mk "u1" "again"]).inbound_size = 3 ∧
    ((publishAll MessageBus.init
      [InboundMessage.mk "u1" "hi", InboundMessage.mk "u2" "yo",
        InboundMessage.mk "u1" "again"]).session_get "u2").map
        (fun r => (r.2.drop_session_queue "u2").inbound_size) = some 2 :=
  ⟨fun _ => rfl, by decide, by decide⟩

/-- C8: publish frame property.  `publish_inbound msg` leaves every other
session queue unchanged, leaves the outbound queue unchanged, removes no
registry entry, appends `msg` to the queue of its session key (created empty
first if absent) and appends exactly one token for that key to the dispatch
notifier. -/
theorem claim8_publish_frame (b : MessageBus) (msg : InboundMessage) :
    (∀ k, k ≠ msg.session_key →
      dictGet (b.publish_inbound msg).session_queues k =
        dictGet b.session_queues k) ∧
    (b.publish_inbound msg).outbound = b.outbound ∧
    (∀ k, (dictGet b.session_queues k).isSome →
      (dictGet (b.publish_inbound msg).session_queues k).isSome) ∧
    dictGet (b.publish_inbound msg).session_queues msg.session_key =
      some ((dictGet b.session_queues msg.session_key).getD [] ++ [msg]) ∧
    (b.publish_inbound msg).dispatch = b.dispatch ++ [msg.session_key] := by
  refine ⟨?_, MessageBus.publish_inbound_outbound b msg, ?_, ?_,
    MessageBus.publish_inbound_dispatch b msg⟩
  · intro k hk
    rw [MessageBus.publish_inbound_sessionGet, if_neg hk]
  · intro k hk
    rw [MessageBus.publish_inbound_sessionGet]
    by_cases h : k = msg.session_key
    · simp [h]
    · simpa [h] using hk
  · rw [MessageBus.publish_inbound_sessionGet, if_pos rfl]

theorem claim8_witness :
    (∀ k, k ≠ "u" →
      dictGet (MessageBus.init.publish_inbound
        (InboundMessage.mk "u" "p")).session_queues k =
          dictGet MessageBus.init.session_queues k) ∧
    (MessageBus.init.publish_inbound (InboundMessage.mk "u" "p")).outbound = [] ∧
    (∀ k, (dictGet MessageBus.init.session_queues k).isSome →
      (dictGet (MessageBus.init.publish_inbound
        (InboundMessage.mk "u" "p")).session_queues k).isSome) ∧
    dictGet (MessageBus.init.publish_inbound
      (InboundMessage.mk "u" "p")).session_queues "u" =
        some [InboundMessage.mk "u" "p"] ∧
    (MessageBus.init.publish_inbound (InboundMessage.mk "u" "p")).dispatch =
      ["u"] :=
  claim8_publish_frame MessageBus.init (InboundMessage.mk "u" "p")

/-- C9: idempotence of drop.  Calling `drop_session_queue key` twice in
immediate succession leaves the bus in the same state as calling it once. -/
theorem claim9_drop_idempotent (b : MessageBus) (key : String) (hWF : b.WF) :
    (b.drop_session_queue key).drop_session_queue key =
      b.drop_session_queue key := by
  cases hx : dictGet b.session_queues key with
  | none =>
      rw [MessageBus.drop_of_none b key hx]
      exact MessageBus.drop_of_none b key hx
  | some q =>
      cases q with
      | nil =>
          rw [MessageBus.drop_of_empty b key hx]
          exact MessageBus.drop_of_none _ key
            (dictGet_dictPop_self b.session_queues key hWF)
      | cons x xs =>
          rw [MessageBus.drop_of_nonempty b key (x :: xs) hx (by simp)]
          exact MessageBus.drop_of_nonempty b key (x :: xs) hx (by simp)

theorem claim9_witness :
    sampleBus.WF ∧
    (sampleBus.drop_session_queue "x").drop_session_queue "x" =
      sampleBus.drop_session_queue "x" :=
  ⟨by decide, claim9_drop_idempotent sampleBus "x" (by decide)⟩

/-- C10: no session-key validation.  `publish_inbound` and `get_session_queue`
accept every string key, including the empty string; a message whose session
key is `""` is appended to the queue registered under `""` with the usual
FIFO append and dispatch token, and `get_session_queue ""` returns the
registered queue for `""`. -/
theorem claim10_empty_key (b : MessageBus) (msg : InboundMessage)
    (h : msg.session_key = "") :
    dictGet (b.publish_inbound msg).session_queues "" =
      some ((dictGet b.session_queues "").getD [] ++ [msg]) ∧
    (b.publish_inbound msg).dispatch = b.dispatch ++ [""] ∧
    (b.get_session_queue "").1 = (dictGet b.session_queues "").getD [] := by
  refine ⟨?_, ?_, MessageBus.get_session_queue_fst b ""⟩
  · rw [MessageBus.publish_inbound_sessionGet, h, if_pos rfl]
  · rw [MessageBus.publish_inbound_dispatch, h]

theorem claim10_witness :
    (InboundMessage.mk "" "p").session_key = "" ∧
    (dictGet (MessageBus.init.publish_inbound
        (InboundMessage.mk "" "p")).session_queues "" =
        some [InboundMessage.mk "" "p"] ∧
      (MessageBus.init.publish_inbound (InboundMessage.mk "" "p")).dispatch =
        [""] ∧
      (MessageBus.init.get_session_queue "").1 = []) :=
  ⟨rfl, claim10_empty_key MessageBus.init (InboundMessage.mk "" "p") rfl⟩

end Nanobot
